import Mathlib

/-!
Verification of the text2voice TTS backend: a shallow embedding of
`enhanced_tts_service.py` and `app.py`, with theorems about voice
resolution, synthesis control flow, the HTTP handler, text cleaning,
language detection, the fallback tone and the WAV encoder.

Strings are modelled as `List Char`; Python dicts as insertion-ordered
association lists; Python float arithmetic as exact arithmetic over
`ℚ` and `ℝ`; the external `espeak-ng` process as an oracle value
`EspeakOutcome` describing how the `subprocess.run` call ends.
-/

namespace TextToVoice

/-- Whitespace characters recognised by Python's `str.split` and
`str.strip` (the ASCII whitespace set; all characters appearing in this
development are ASCII or Devanagari). -/
def pyIsSpace (c : Char) : Bool :=
  c == ' ' || c == '\t' || c == '\n' || c == '\r' || c == '\x0b' || c == '\x0c'

/-- Python `text.strip()` on a `List Char`: drop whitespace at both ends. -/
def pyStrip (l : List Char) : List Char :=
  ((l.dropWhile pyIsSpace).reverse.dropWhile pyIsSpace).reverse

/-- Python `text.split()` with no separator: the maximal runs of
non-whitespace characters, in order; leading, trailing and repeated
whitespace produce no empty words. -/
def pyWords (l : List Char) : List (List Char) :=
  match l with
  | [] => []
  | c :: rest =>
    if pyIsSpace c then pyWords rest
    else (c :: rest.takeWhile (fun x => !pyIsSpace x)) ::
      pyWords (rest.dropWhile (fun x => !pyIsSpace x))
termination_by l.length
decreasing_by
· simp
· have h : (rest.dropWhile (fun x => !pyIsSpace x)).length ≤ rest.length :=
    (List.dropWhile_sublist (fun x => !pyIsSpace x)).length_le
  simp only [List.length_cons]
  omega

/-- Python `' '.join(words)`. -/
def joinSpace : List (List Char) → List Char
  | [] => []
  | [w] => w
  | w :: ws => w ++ ' ' :: joinSpace ws

/-- Helper for `pyReplace`: scan left to right, replacing each
non-overlapping occurrence of `pat`; `fuel` bounds the recursion and is
instantiated with the length of the scanned list. -/
def replaceAux (pat rep : List Char) : Nat → List Char → List Char
  | _, [] => []
  | 0, l => l
  | fuel + 1, c :: rest =>
    if pat.isPrefixOf (c :: rest) then
      rep ++ replaceAux pat rep fuel (rest.drop (pat.length - 1))
    else
      c :: replaceAux pat rep fuel rest

/-- Python `text.replace(pat, rep)` for a nonempty literal pattern:
leftmost, non-overlapping occurrences are replaced. -/
def pyReplace (pat rep l : List Char) : List Char := replaceAux pat rep l.length l

/-- The abbreviation table of `EnhancedTTSService._clean_text`, in the
dict's insertion order. -/
def replacements : List (List Char × List Char) :=
  [("Dr.".toList, "Doctor".toList),
   ("Mr.".toList, "Mister".toList),
   ("Mrs.".toList, "Missus".toList),
   ("Ms.".toList, "Miss".toList),
   ("Prof.".toList, "Professor".toList)]

/-- Embedding of `EnhancedTTSService._clean_text`: first
`' '.join(text.split())`, then the abbreviation replacements applied in
table order. -/
def clean_text (l : List Char) : List Char :=
  replacements.foldl (fun acc pr => pyReplace pr.1 pr.2 acc) (joinSpace (pyWords l))

/-- Claim-side normalisation, following the spec sentence literally:
every maximal run of whitespace, including a leading or trailing run,
becomes a single space.  The boolean records whether the previous
character belonged to a whitespace run. -/
def collapseAux : Bool → List Char → List Char
  | _, [] => []
  | prev, c :: rest =>
    if pyIsSpace c then
      if prev then collapseAux true rest else ' ' :: collapseAux true rest
    else c :: collapseAux false rest

/-- Claim-side normalisation: collapse every whitespace run (leading and
trailing ones included) into one space. -/
def collapseRuns (l : List Char) : List Char := collapseAux false l

/-- Claim-side cleaning, following the spec sentence literally: collapse
all whitespace runs into single spaces, then apply the abbreviation
replacements in table order. -/
def claim_clean_text (l : List Char) : List Char :=
  replacements.foldl (fun acc pr => pyReplace pr.1 pr.2 acc) (collapseRuns l)

/-- Normalisation that strips leading whitespace entirely, collapses each
interior whitespace run into one space and drops a trailing run; stated
recursively so that it can be compared with `joinSpace ∘ pyWords`. -/
def collapseInner (l : List Char) : List Char :=
  match l with
  | [] => []
  | c :: rest =>
    if pyIsSpace c then
      match collapseInner (rest.dropWhile pyIsSpace) with
      | [] => []
      | x :: xs => ' ' :: x :: xs
    else c :: collapseInner rest
termination_by l.length
decreasing_by
· have h : (rest.dropWhile pyIsSpace).length ≤ rest.length :=
    (List.dropWhile_sublist pyIsSpace).length_le
  simp only [List.length_cons]
  omega
· simp

/-- Amended normalisation: strip leading and trailing whitespace, collapse
every interior whitespace run into a single space. -/
def normSpec (l : List Char) : List Char := collapseInner (l.dropWhile pyIsSpace)

/-- Amended cleaning: strip the ends, collapse interior whitespace runs,
then apply the abbreviation replacements in table order. -/
def spec_clean_text (l : List Char) : List Char :=
  replacements.foldl (fun acc pr => pyReplace pr.1 pr.2 acc) (normSpec l)

/-- Voice profile: one entry of `voice_configs` (a voice tag, a speed and
a pitch). -/
structure VoiceProfile where
  voice : String
  speed : Nat
  pitch : Nat
deriving DecidableEq, Repr

/-- English voice table of `EnhancedTTSService.voice_configs`. -/
def en_voices : List (String × VoiceProfile) :=
  [("alloy", ⟨"en+f3", 175, 50⟩),
   ("echo", ⟨"en+f4", 160, 45⟩),
   ("fable", ⟨"en+f5", 180, 55⟩),
   ("onyx", ⟨"en+m1", 150, 40⟩),
   ("nova", ⟨"en+f1", 190, 60⟩),
   ("shimmer", ⟨"en+f2", 170, 52⟩)]

/-- Hindi voice table of `EnhancedTTSService.voice_configs`. -/
def hi_voices : List (String × VoiceProfile) :=
  [("hindi_voice", ⟨"hi+f1", 165, 48⟩),
   ("alloy", ⟨"hi+f1", 165, 48⟩)]

/-- Embedding of `EnhancedTTSService.voice_configs`. -/
def voice_configs : List (String × List (String × VoiceProfile)) :=
  [("en", en_voices), ("hi", hi_voices)]

/-- Python `d.get(k)` on an insertion-ordered association list. -/
def dictGet {α : Type} (k : String) (d : List (String × α)) : Option α :=
  (d.find? (fun pr => pr.1 == k)).map (fun pr => pr.2)

/-- Embedding of `EnhancedTTSService._get_voice_config`.  Python evaluates
the default `lang_voices['alloy']` eagerly, so a table without the key
"alloy" would raise `KeyError`, modelled by `none`; both actual tables
contain it. -/
def get_voice_config (voice language : String) : Option VoiceProfile :=
  let lang_voices := (dictGet language voice_configs).getD en_voices
  match dictGet "alloy" lang_voices with
  | none => none
  | some dflt => some ((dictGet voice lang_voices).getD dflt)

/-- Outcome of the `subprocess.run` call inside
`_synthesize_with_espeak`, observed after the temporary output file has
been created: the process succeeded and wrote the file (`ok` with the
file's bytes), returned 0 without writing the file, returned a nonzero
code, raised `TimeoutExpired`, or raised `FileNotFoundError` because the
executable is missing. -/
inductive EspeakOutcome where
  | ok (audio : List Nat)
  | okNoFile
  | procFail
  | timeoutExpired
  | notFound
deriving DecidableEq

/-- Embedding of `EnhancedTTSService._synthesize_with_espeak`.  First
component: the value returned to the caller.  Second component: whether
the temporary output file is still on disk when the call returns — on
success it is read and unlinked, on a nonzero return code it is unlinked
behind an existence check, but the `except` branch taken on
`TimeoutExpired` or `FileNotFoundError` returns without unlinking. -/
def synthesize_with_espeak (outcome : EspeakOutcome) : Option (List Nat) × Bool :=
  match outcome with
  | .ok audio => (some audio, false)
  | .okNoFile => (none, false)
  | .procFail => (none, false)
  | .timeoutExpired => (none, true)
  | .notFound => (none, true)

/-- Body of the `try:` block of `EnhancedTTSService.synthesize_speech`.
`_clean_text` and `_synthesize_with_espeak` cannot raise (the latter
handles its own exceptions and returns `None`), so the only statement
that could raise is the `lang_voices['alloy']` lookup inside
`_get_voice_config`; the outer `none` marks that exception propagating
to the handler. -/
def synthesize_try (outcome : EspeakOutcome) (text : List Char) (language voice : String) :
    Option (Option (List Nat)) :=
  let _cleaned := clean_text text
  match get_voice_config voice language with
  | none => none
  | some _cfg => some (synthesize_with_espeak outcome).1

/-- Embedding of `EnhancedTTSService.synthesize_speech`.  `fallback`
abstracts the bytes produced by `_generate_fallback_audio` (its signal
is analysed separately over `ℝ`); it is called only from the `except`
branch. -/
def synthesize_speech (fallback : List Char → String → List Nat)
    (outcome : EspeakOutcome) (text : List Char) (language voice : String) :
    Option (List Nat) :=
  if (pyStrip text).isEmpty then none
  else
    match synthesize_try outcome text language voice with
    | some r => r
    | none => some (fallback (clean_text text) language)

/-- Devanagari code-point test used by both language detectors:
U+0900 ≤ c ≤ U+097F. -/
def isDevanagari (c : Char) : Bool :=
  0x900 ≤ c.toNat && c.toNat ≤ 0x97F

/-- Model of Python's `str.isalpha` on the character set used here:
ASCII letters plus the letter-category code points of the Devanagari
block (U+0904–U+0939, U+093D, U+0950, U+0958–U+0961, U+0971–U+097F);
Devanagari digits U+0966–U+096F, the dandas U+0964–U+0965 and the
combining signs are not alphabetic. -/
def pyIsAlpha (c : Char) : Bool :=
  (65 ≤ c.toNat && c.toNat ≤ 90) || (97 ≤ c.toNat && c.toNat ≤ 122) ||
  (0x904 ≤ c.toNat && c.toNat ≤ 0x939) || c.toNat == 0x93D || c.toNat == 0x950 ||
  (0x958 ≤ c.toNat && c.toNat ≤ 0x961) || (0x971 ≤ c.toNat && c.toNat ≤ 0x97F)

/-- Embedding of the module-level `detect_language` in `app.py`: count
alphabetic characters, and among them the Devanagari ones; return "hi"
when more than 30% of the alphabetic characters are Devanagari.  The
float comparison `hindi_chars / total_chars > 0.3` is modelled exactly
over `ℚ`. -/
def detect_language (l : List Char) : String :=
  let total_chars := (l.filter pyIsAlpha).length
  let hindi_chars := (l.filter (fun c => pyIsAlpha c && isDevanagari c)).length
  if 0 < total_chars ∧ (3 : ℚ) / 10 < (hindi_chars : ℚ) / (total_chars : ℚ) then "hi"
  else "en"

/-- Embedding of `EnhancedTTSService.detect_language`: empty text maps to
"en"; otherwise the Devanagari count ranges over all characters while the
total counts only alphabetic ones. -/
def service_detect_language (l : List Char) : String :=
  if l.isEmpty then "en"
  else
    let hindi_chars := (l.filter isDevanagari).length
    let total_chars := (l.filter pyIsAlpha).length
    if 0 < total_chars ∧ (3 : ℚ) / 10 < (hindi_chars : ℚ) / (total_chars : ℚ) then "hi"
    else "en"

/-- Response of the `/v1/audio/speech` handler: a JSON error with an HTTP
status, or an audio body with status 200 (content type and headers are
not modelled; no claim mentions them). -/
inductive SpeechResponse where
  | jsonError (status : Nat) (error : String)
  | audio (status : Nat) (body : List Nat)
deriving DecidableEq

/-- Embedding of `create_speech` in `app.py`.  `data` is the parsed JSON
body: `none` when `request.get_json()` yields `None`, otherwise the dict
as an association list of string fields, `{}` being `some []`.  Python's
`if not data:` is truthiness, so `None` and `{}` both take the first
400 branch. -/
def create_speech (fallback : List Char → String → List Nat)
    (outcome : EspeakOutcome) (data : Option (List (String × String))) :
    SpeechResponse :=
  match data with
  | none => .jsonError 400 "No JSON data provided"
  | some d =>
    if d.isEmpty then .jsonError 400 "No JSON data provided"
    else
      let text := (dictGet "input" d).getD ""
      if (pyStrip text.toList).isEmpty then .jsonError 400 "Input text is required"
      else
        let language := detect_language text.toList
        let voice := (dictGet "voice" d).getD "alloy"
        match synthesize_speech fallback outcome text.toList language voice with
        | none => .jsonError 500 "Failed to generate speech"
        | some audioData => .audio 200 audioData

/-- Fixed sample rate of the service. -/
def sample_rate : Nat := 22050

/-- Duration of the fallback tone: `min(len(text) * 0.08, 10.0)`, the
float literal 0.08 modelled exactly as 8/100. -/
def fallback_duration (textLen : Nat) : ℚ := min ((textLen : ℚ) * (8 / 100)) 10

/-- Tone frequency chosen by `_generate_fallback_audio`: 440 Hz for
English, 523 Hz otherwise. -/
def fallback_frequency (language : String) : Nat :=
  if language == "en" then 440 else 523

/-- Number of samples of the fallback tone:
`int(self.sample_rate * duration)` (truncation of a non-negative value). -/
def fallback_num_samples (textLen : Nat) : Nat :=
  (⌊(sample_rate : ℚ) * fallback_duration textLen⌋).toNat

/-- Sample points of `np.linspace(0, d, n)`: evenly spaced on `[0, d]`,
`0` when `n ≤ 1`. -/
noncomputable def linspace (d : ℝ) (n i : Nat) : ℝ :=
  if n ≤ 1 then 0 else d * i / ((n : ℝ) - 1)

/-- Sample `i` of the signal built by `_generate_fallback_audio`:
`0.3 * sin(2 π f t)` multiplied by the envelope `exp(-t / (d / 3))`,
where `d` is the duration and `t` the `i`-th `linspace` point. -/
noncomputable def fallback_sample (text : List Char) (language : String) (i : Nat) : ℝ :=
  0.3 * Real.sin (2 * Real.pi * (fallback_frequency language : ℝ) *
      linspace ((fallback_duration text.length : ℚ) : ℝ) (fallback_num_samples text.length) i) *
    Real.exp (-(linspace ((fallback_duration text.length : ℚ) : ℝ)
        (fallback_num_samples text.length) i) /
      (((fallback_duration text.length : ℚ) : ℝ) / 3))

/-- Two little-endian bytes of a value already reduced below 2^16. -/
def le16 (m : Nat) : List Nat := [m % 256, m / 256 % 256]

/-- Four little-endian bytes of a value already reduced below 2^32. -/
def le32 (m : Nat) : List Nat :=
  [m % 256, m / 256 % 256, m / 65536 % 256, m / 16777216 % 256]

/-- Little-endian two's-complement encoding of one 16-bit sample. -/
def int16le (s : ℤ) : List Nat := le16 (s % 65536).toNat

/-- `np.clip(x, -1.0, 1.0)` on one sample. -/
def clip (q : ℚ) : ℚ := min (max q (-1)) 1

/-- Truncation toward zero, as C casts (and `astype(np.int16)`) do on
in-range values. -/
def truncTowardZero (q : ℚ) : ℤ := if 0 ≤ q then ⌊q⌋ else ⌈q⌉

/-- One sample of `(np.clip(audio_array, -1.0, 1.0) * 32767).astype(np.int16)`. -/
def quantize (q : ℚ) : ℤ := truncTowardZero (clip q * 32767)

/-- The int16 sample list of `_numpy_to_wav`. -/
def wav_samples (buf : List ℚ) : List ℤ := buf.map quantize

/-- The data chunk payload of `_numpy_to_wav`: each sample as two
little-endian bytes. -/
def wav_data (buf : List ℚ) : List Nat := (List.map int16le (wav_samples buf)).flatten

/-- The 44-byte canonical WAV header written by the `wave` module for a
mono, 16-bit, 22050 Hz stream whose data chunk holds `dataLen` bytes:
"RIFF", riff size, "WAVE", "fmt " chunk (PCM format 1, 1 channel,
rate 22050, byte rate 44100, block align 2, 16 bits), "data", data size. -/
def wav_header (dataLen : Nat) : List Nat :=
  [82, 73, 70, 70] ++ le32 (36 + dataLen) ++ [87, 65, 86, 69] ++
  [102, 109, 116, 32] ++ le32 16 ++ le16 1 ++ le16 1 ++
  le32 22050 ++ le32 44100 ++ le16 2 ++ le16 16 ++
  [100, 97, 116, 97] ++ le32 dataLen

/-- Embedding of `EnhancedTTSService._numpy_to_wav`: clip, scale to
int16, and wrap in a RIFF/WAVE container.  The `wave` module packs the
chunk sizes as 32-bit values and raises beyond that, modelled by `none`. -/
def numpy_to_wav (buf : List ℚ) : Option (List Nat) :=
  let data := wav_data buf
  if data.length + 36 < 4294967296 then some (wav_header data.length ++ data) else none

/-- Byte `i` of a byte stream (0 past the end). -/
def byteAt : List Nat → Nat → Nat
  | [], _ => 0
  | b :: _, 0 => b
  | _ :: rest, i + 1 => byteAt rest i

/-- Little-endian 16-bit field at offset `i` of a byte stream. -/
def readLE16 (bs : List Nat) (i : Nat) : Nat := byteAt bs i + 256 * byteAt bs (i + 1)

/-- Little-endian 32-bit field at offset `i` of a byte stream. -/
def readLE32 (bs : List Nat) (i : Nat) : Nat :=
  byteAt bs i + 256 * byteAt bs (i + 1) + 65536 * byteAt bs (i + 2) +
    16777216 * byteAt bs (i + 3)

/-- Audio format field a standard WAV reader finds at offset 20. -/
def wavFormat (bs : List Nat) : Nat := readLE16 bs 20

/-- Channel count field a standard WAV reader finds at offset 22. -/
def wavChannels (bs : List Nat) : Nat := readLE16 bs 22

/-- Sample rate field a standard WAV reader finds at offset 24. -/
def wavSampleRate (bs : List Nat) : Nat := readLE32 bs 24

/-- Bits-per-sample field a standard WAV reader finds at offset 34. -/
def wavBits (bs : List Nat) : Nat := readLE16 bs 34

/-- Data chunk length a standard WAV reader finds at offset 40. -/
def wavDataLen (bs : List Nat) : Nat := readLE32 bs 40

/-- Frame count computed by a standard WAV reader: data length divided by
the frame size (channels times bytes per sample). -/
def wavFrames (bs : List Nat) : Nat :=
  wavDataLen bs / (wavChannels bs * (wavBits bs / 8))

/-! Helper lemmas shared by the claim theorems. -/

theorem dictGet_nil {α : Type} (k : String) : dictGet k ([] : List (String × α)) = none := rfl

theorem dictGet_cons {α : Type} (k key : String) (v : α) (d : List (String × α)) :
    dictGet k ((key, v) :: d) = if (key == k) = true then some v else dictGet k d := by
  by_cases h : (key == k) = true
  · simp [dictGet, List.find?_cons_of_pos, h]
  · simp only [dictGet, List.find?]
    simp [h]

theorem dictGet_voice_configs (language : String) :
    dictGet language voice_configs = some en_voices ∨
    dictGet language voice_configs = some hi_voices ∨
    dictGet language voice_configs = none := by
  unfold voice_configs
  rw [dictGet_cons, dictGet_cons, dictGet_nil]
  by_cases h1 : ("en" == language) = true
  · simp [h1]
  · by_cases h2 : ("hi" == language) = true
    · simp [h1, h2]
    · simp [h1, h2]

theorem alloy_en : dictGet "alloy" en_voices = some ⟨"en+f3", 175, 50⟩ := rfl

theorem alloy_hi : dictGet "alloy" hi_voices = some ⟨"hi+f1", 165, 48⟩ := rfl

theorem get_voice_config_total (voice language : String) :
    ∃ p, get_voice_config voice language = some p := by
  unfold get_voice_config
  rcases dictGet_voice_configs language with h | h | h <;> rw [h] <;> simp [alloy_en, alloy_hi]

/-- C4: for every pair of strings (language, voice), the voice resolver
returns a valid voice profile and never fails; an unsupported language
falls back to the English table, and within the chosen table an absent
voice id falls back to the default voice id "alloy". -/
theorem voice_resolver_total (language voice : String) :
    (∃ p, get_voice_config voice language = some p) ∧
    (dictGet language voice_configs = none →
      get_voice_config voice language = get_voice_config voice "en") ∧
    (dictGet voice ((dictGet language voice_configs).getD en_voices) = none →
      get_voice_config voice language =
        dictGet "alloy" ((dictGet language voice_configs).getD en_voices)) := by
  refine ⟨get_voice_config_total voice language, ?_, ?_⟩
  · intro h
    unfold get_voice_config
    rw [h]
    rfl
  · intro h
    unfold get_voice_config
    rcases dictGet_voice_configs language with hl | hl | hl <;> rw [hl] at h ⊢ <;>
      simp_all [alloy_en, alloy_hi]

/-- C4 witness: at the unsupported language "fr", the resolver falls back
to the English table. -/
theorem voice_resolver_total_witness :
    get_voice_config "nova" "fr" = get_voice_config "nova" "en" :=
  (voice_resolver_total "fr" "nova").2.1 rfl

/-- C5: for every supported language and every voice id absent from that
language's table, the resolver returns that language's own "alloy"
profile. -/
theorem supported_language_default (language voice : String)
    (tbl : List (String × VoiceProfile))
    (hl : dictGet language voice_configs = some tbl)
    (hv : dictGet voice tbl = none) :
    ∃ p, dictGet "alloy" tbl = some p ∧ get_voice_config voice language = some p := by
  have htbl : tbl = en_voices ∨ tbl = hi_voices := by
    rcases dictGet_voice_configs language with h | h | h <;> rw [hl] at h <;>
      first
      | exact Or.inl (Option.some_injective _ h)
      | exact Or.inr (Option.some_injective _ h)
      | exact absurd h (by simp)
  unfold get_voice_config
  rw [hl]
  rcases htbl with rfl | rfl <;> simp [alloy_en, alloy_hi, hv]

/-- C5 witness: the unknown voice id "zz" in the supported language "hi"
resolves to the Hindi "alloy" profile. -/
theorem supported_language_default_witness :
    ∃ p, dictGet "alloy" hi_voices = some p ∧ get_voice_config "zz" "hi" = some p :=
  supported_language_default "hi" "zz" hi_voices rfl rfl

/-- C3 counterexample: when `subprocess.run` raises `TimeoutExpired`, the
`except` branch of `_synthesize_with_espeak` returns without unlinking
the already-created temporary file, so the file is left behind. -/
theorem espeak_timeout_leaves_tempfile :
    (synthesize_with_espeak EspeakOutcome.timeoutExpired).2 = true := rfl

/-- C3 amended: the temporary file is removed on the success and
process-failure exit paths, but an exception raised by `subprocess.run`
(a timeout or a missing executable) leaves it behind. -/
theorem espeak_tempfile_cleanup (o : EspeakOutcome) :
    (synthesize_with_espeak o).2 = false ↔
      ((∃ b, o = EspeakOutcome.ok b) ∨ o = EspeakOutcome.okNoFile ∨
        o = EspeakOutcome.procFail) := by
  cases o <;> simp [synthesize_with_espeak]

/-- C1 counterexample: "hello" is not blank, yet when the synthesizer
process fails `synthesize_speech` returns `None` instead of fallback
audio, because `_synthesize_with_espeak` catches its errors and returns
`None` rather than raising. -/
theorem synthesize_failure_returns_none :
    (pyStrip "hello".toList).isEmpty = false ∧
    synthesize_speech (fun _ _ => []) EspeakOutcome.procFail "hello".toList "en" "alloy" =
      none := by
  exact ⟨rfl, rfl⟩

/-- C1 amended: `synthesize_speech` never raises, but it returns `None`
not only for blank text: it also returns `None` whenever the external
synthesizer does not succeed (process failure, timeout, missing
executable, or missing output file); the fallback-audio branch is
unreachable because `_synthesize_with_espeak` handles its own
exceptions.  On success with non-blank text it returns the synthesizer's
bytes. -/
theorem synthesize_amended (fallback : List Char → String → List Nat)
    (o : EspeakOutcome) (text : List Char) (language voice : String) :
    (synthesize_speech fallback o text language voice = none ↔
      ((pyStrip text).isEmpty = true ∨ ∀ b, o ≠ EspeakOutcome.ok b)) ∧
    (∀ b, (pyStrip text).isEmpty = false → o = EspeakOutcome.ok b →
      synthesize_speech fallback o text language voice = some b) := by
  obtain ⟨p, hp⟩ := get_voice_config_total voice language
  by_cases hb : (pyStrip text).isEmpty = true
  · constructor
    · simp [synthesize_speech, hb]
    · intro b hb' _
      rw [hb] at hb'
      cases hb'
  · have hb' : (pyStrip text).isEmpty = false := by
      cases h : (pyStrip text).isEmpty
      · rfl
      · exact absurd h hb
    constructor
    · cases o <;>
        simp [synthesize_speech, synthesize_try, hb', hp, synthesize_with_espeak]
    · intro b _ hob
      subst hob
      simp [synthesize_speech, synthesize_try, hb', hp, synthesize_with_espeak]

/-- C1 witness: on a successful synthesizer run with non-blank text, the
synthesizer's bytes are returned. -/
theorem synthesize_amended_witness :
    synthesize_speech (fun _ _ => []) (EspeakOutcome.ok [1, 2, 3]) "hi there".toList
      "en" "alloy" = some [1, 2, 3] :=
  (synthesize_amended (fun _ _ => []) (EspeakOutcome.ok [1, 2, 3]) "hi there".toList
    "en" "alloy").2 [1, 2, 3] rfl rfl

/-- C2 counterexample: the empty JSON body `{}` is falsy in Python, so
`create_speech` answers 400 with "No JSON data provided", not with
"Input text is required" as the claim states. -/
theorem empty_body_error_message :
    create_speech (fun _ _ => []) EspeakOutcome.procFail (some []) =
      SpeechResponse.jsonError 400 "No JSON data provided" ∧
    "No JSON data provided" ≠ "Input text is required" := by
  exact ⟨rfl, by decide⟩

/-- C2 amended: a missing JSON body and the empty body `{}` both get 400
with "No JSON data provided"; a request whose JSON object is non-empty
but whose `input` field is missing or blank gets 400 with "Input text is
required". -/
theorem create_speech_amended (fallback : List Char → String → List Nat)
    (o : EspeakOutcome) (d : List (String × String)) :
    create_speech fallback o none = SpeechResponse.jsonError 400 "No JSON data provided" ∧
    create_speech fallback o (some []) =
      SpeechResponse.jsonError 400 "No JSON data provided" ∧
    (d ≠ [] → (pyStrip ((dictGet "input" d).getD "").toList).isEmpty = true →
      create_speech fallback o (some d) =
        SpeechResponse.jsonError 400 "Input text is required") := by
  refine ⟨rfl, rfl, ?_⟩
  intro hd hblank
  have hde : d.isEmpty = false := by
    cases d
    · exact absurd rfl hd
    · rfl
  have hblank' : pyStrip ((dictGet "input" d).getD "").data = [] := by
    simpa [List.isEmpty_iff, String.toList] using hblank
  simp [create_speech, hde, hblank', String.toList]

/-- C2 witness: a non-empty JSON body with no `input` field gets 400 with
"Input text is required". -/
theorem create_speech_amended_witness :
    create_speech (fun _ _ => []) EspeakOutcome.procFail (some [("model", "tts-1")]) =
      SpeechResponse.jsonError 400 "Input text is required" :=
  (create_speech_amended (fun _ _ => []) EspeakOutcome.procFail [("model", "tts-1")]).2.2
    (by decide) rfl

/-- C9 counterexample: on "a" followed by the Devanagari digit nine
(U+096F, not alphabetic), `app.py`'s detector counts no Devanagari
characters among the alphabetic ones and says "en", while the service's
detector counts the digit in its numerator and says "hi"; the two
implementations are not extensionally equal, and the service disagrees
with the claimed characterisation. -/
theorem detect_language_not_equivalent :
    detect_language ['a', Char.ofNat 2415] = "en" ∧
    service_detect_language ['a', Char.ofNat 2415] = "hi" ∧
    detect_language ['a', Char.ofNat 2415] ≠
      service_detect_language ['a', Char.ofNat 2415] := by
  have ha : pyIsAlpha 'a' = true := by decide
  have hd9a : pyIsAlpha (Char.ofNat 2415) = false := by decide
  have hd9d : isDevanagari (Char.ofNat 2415) = true := by decide
  have had : isDevanagari 'a' = false := by decide
  have h1 : detect_language ['a', Char.ofNat 2415] = "en" := by
    simp [detect_language, List.filter, ha, hd9a, hd9d, had]
    norm_num
  have h2 : service_detect_language ['a', Char.ofNat 2415] = "hi" := by
    simp [service_detect_language, List.filter, ha, hd9a, hd9d, had]
    norm_num
  refine ⟨h1, h2, ?_⟩
  rw [h1, h2]
  decide

/-- C9 amended: the `app.py` detector counts Devanagari characters only
among the alphabetic ones, the service counts every character in
U+0900–U+097F, so the two implementations agree on exactly those strings
whose Devanagari characters are all alphabetic (they disagree, e.g., on
Devanagari digits); on such strings both return "hi" precisely when the
string has alphabetic characters and more than 30% of them are
Devanagari. -/
theorem detect_language_agree (l : List Char)
    (h : (l.all fun c => !isDevanagari c || pyIsAlpha c) = true) :
    detect_language l = service_detect_language l := by
  have h' : ∀ c ∈ l, isDevanagari c = true → pyIsAlpha c = true := by
    intro c hc hd
    have := (List.all_eq_true.mp h) c hc
    rw [hd] at this
    simpa using this
  have hfilter : l.filter (fun c => pyIsAlpha c && isDevanagari c) = l.filter isDevanagari := by
    apply List.filter_congr
    intro c hc
    by_cases hd : isDevanagari c = true
    · rw [hd, h' c hc hd]
      rfl
    · have hd' : isDevanagari c = false := by
        cases hde : isDevanagari c
        · rfl
        · exact absurd hde hd
      rw [hd']
      simp
  cases l with
  | nil => rfl
  | cons c rest =>
    simp only [detect_language, service_detect_language, List.isEmpty_cons, hfilter]
    rfl

/-- C9 witness: on the all-letter Devanagari string "नमन" the two
detectors agree. -/
theorem detect_language_agree_witness :
    detect_language "नमन".toList = service_detect_language "नमन".toList :=
  detect_language_agree "नमन".toList (by decide)

theorem clip_bounds (q : ℚ) : -1 ≤ clip q ∧ clip q ≤ 1 :=
  ⟨le_min (le_max_right q (-1)) (by norm_num), min_le_right _ _⟩

theorem quantize_bounds (q : ℚ) : -32767 ≤ quantize q ∧ quantize q ≤ 32767 := by
  obtain ⟨h0, h1⟩ := clip_bounds q
  have hx1 : clip q * 32767 ≤ 32767 := by nlinarith
  have hx0 : -32767 ≤ clip q * 32767 := by nlinarith
  unfold quantize truncTowardZero
  by_cases hs : (0 : ℚ) ≤ clip q * 32767
  · rw [if_pos hs]
    constructor
    · have hnn : 0 ≤ ⌊clip q * 32767⌋ := Int.floor_nonneg.mpr hs
      omega
    · have hm := Int.floor_mono hx1
      have h327 : ⌊(32767 : ℚ)⌋ = 32767 := by norm_num
      omega
  · rw [if_neg hs]
    constructor
    · have hm := Int.ceil_mono hx0
      have h327 : ⌈(-32767 : ℚ)⌉ = -32767 := by
        rw [show (-32767 : ℚ) = ((-32767 : ℤ) : ℚ) by norm_num, Int.ceil_intCast]
      omega
    · have hnp : ⌈clip q * 32767⌉ ≤ 0 := by
        refine Int.ceil_le.mpr ?_
        push_neg at hs
        exact_mod_cast le_of_lt hs
      omega

/-- C10: every sample produced by the int16 conversion of the WAV encoder
lies in [-32767, 32767]: the input is clipped to [-1, 1] before scaling
by 32767, so the int16 cast cannot overflow. -/
theorem wav_samples_bounded (buf : List ℚ) (s : ℤ) (hs : s ∈ wav_samples buf) :
    -32767 ≤ s ∧ s ≤ 32767 := by
  obtain ⟨q, _, rfl⟩ := List.mem_map.mp hs
  exact quantize_bounds q

/-- C10 witness: the out-of-range input sample 2 is clipped and encodes
within [-32767, 32767]. -/
theorem wav_samples_bounded_witness :
    -32767 ≤ quantize 2 ∧ quantize 2 ≤ 32767 :=
  wav_samples_bounded [2] (quantize 2) (by simp [wav_samples])

theorem wav_data_length (buf : List ℚ) : (wav_data buf).length = 2 * buf.length := by
  induction buf with
  | nil => rfl
  | cons q rest ih =>
    simp only [wav_data, wav_samples, List.map_cons, List.flatten_cons, List.length_append,
      List.length_cons, int16le, le16, List.length_nil] at *
    omega

theorem wav_header_eq (d : Nat) : wav_header d =
    82 :: 73 :: 70 :: 70 ::
    (36 + d) % 256 :: (36 + d) / 256 % 256 :: (36 + d) / 65536 % 256 ::
    (36 + d) / 16777216 % 256 ::
    87 :: 65 :: 86 :: 69 ::
    102 :: 109 :: 116 :: 32 ::
    16 :: 0 :: 0 :: 0 ::
    1 :: 0 :: 1 :: 0 ::
    34 :: 86 :: 0 :: 0 ::
    68 :: 172 :: 0 :: 0 ::
    2 :: 0 :: 16 :: 0 ::
    100 :: 97 :: 116 :: 97 ::
    d % 256 :: d / 256 % 256 :: d / 65536 % 256 :: d / 16777216 % 256 :: [] := by
  simp [wav_header, le16, le32]

theorem wavFormat_header (d : Nat) (data : List Nat) :
    wavFormat (wav_header d ++ data) = 1 := by
  rw [wav_header_eq]; rfl

theorem wavChannels_header (d : Nat) (data : List Nat) :
    wavChannels (wav_header d ++ data) = 1 := by
  rw [wav_header_eq]; rfl

theorem wavBits_header (d : Nat) (data : List Nat) :
    wavBits (wav_header d ++ data) = 16 := by
  rw [wav_header_eq]; rfl

theorem wavSampleRate_header (d : Nat) (data : List Nat) :
    wavSampleRate (wav_header d ++ data) = 22050 := by
  rw [wav_header_eq]; rfl

theorem wavDataLen_header (d : Nat) (data : List Nat) (h : d < 4294967296) :
    wavDataLen (wav_header d ++ data) = d := by
  rw [wav_header_eq]
  show d % 256 + 256 * (d / 256 % 256) + 65536 * (d / 65536 % 256) +
      16777216 * (d / 16777216 % 256) = d
  omega

/-- C7: for every buffer whose encoding fits the 32-bit chunk sizes, the
WAV encoder produces a RIFF/WAVE stream that a standard reader decodes
as PCM (format 1), mono, 16-bit, 22050 Hz, whose data length is twice
the sample count and whose frame count is the sample count, equal to the
data byte length divided by 2. -/
theorem wav_roundtrip (buf : List ℚ) (h : 2 * buf.length + 36 < 4294967296) :
    ∃ bs, numpy_to_wav buf = some bs ∧ wavFormat bs = 1 ∧ wavChannels bs = 1 ∧
      wavBits bs = 16 ∧ wavSampleRate bs = sample_rate ∧
      wavDataLen bs = 2 * buf.length ∧ wavFrames bs = buf.length ∧
      wavFrames bs = wavDataLen bs / 2 := by
  have hlen := wav_data_length buf
  have hd32 : (wav_data buf).length < 4294967296 := by omega
  have hdl := wavDataLen_header (wav_data buf).length (wav_data buf) hd32
  refine ⟨wav_header (wav_data buf).length ++ wav_data buf, ?_, wavFormat_header _ _,
    wavChannels_header _ _, wavBits_header _ _, wavSampleRate_header _ _, ?_, ?_, ?_⟩
  · unfold numpy_to_wav
    rw [if_pos (by omega : (wav_data buf).length + 36 < 4294967296)]
  · omega
  · unfold wavFrames
    rw [hdl, wavChannels_header, wavBits_header]
    omega
  · unfold wavFrames
    rw [hdl, wavChannels_header, wavBits_header]

/-- C7 witness: the three-sample buffer [1/2, -1/4, 0] encodes to a WAV
stream with the declared mono 16-bit 22050 Hz format and 3 frames. -/
theorem wav_roundtrip_witness :
    ∃ bs, numpy_to_wav [1/2, -1/4, 0] = some bs ∧ wavFormat bs = 1 ∧ wavChannels bs = 1 ∧
      wavBits bs = 16 ∧ wavSampleRate bs = sample_rate ∧
      wavDataLen bs = 2 * ([1/2, -1/4, 0] : List ℚ).length ∧
      wavFrames bs = ([1/2, -1/4, 0] : List ℚ).length ∧
      wavFrames bs = wavDataLen bs / 2 :=
  wav_roundtrip [1/2, -1/4, 0] (by decide)

theorem amplitude_bound (s e : ℝ) (hs1 : -1 ≤ s) (hs2 : s ≤ 1) (he1 : 0 < e)
    (he2 : e ≤ 1) : -1 ≤ 0.3 * s * e ∧ 0.3 * s * e ≤ 1 := by
  constructor <;> nlinarith

theorem fallback_duration_nonneg (n : Nat) : 0 ≤ fallback_duration n := by
  unfold fallback_duration
  exact le_min (by positivity) (by norm_num)

theorem linspace_nonneg (d : ℝ) (n i : Nat) (hd : 0 ≤ d) : 0 ≤ linspace d n i := by
  unfold linspace
  by_cases hn : n ≤ 1
  · rw [if_pos hn]
  · rw [if_neg hn]
    have h2 : 2 ≤ n := by omega
    have h2' : (2 : ℝ) ≤ (n : ℝ) := by exact_mod_cast h2
    apply div_nonneg
    · exact mul_nonneg hd (Nat.cast_nonneg i)
    · linarith

/-- C6: the fallback tone's duration is exactly
min(0.08 × length of text, 10.0) seconds, and every sample of the
generated signal 0.3·sin(2π·f·t) times the exponential decay envelope
lies within [-1, 1]. -/
theorem fallback_tone_spec (text : List Char) (language : String) (i : Nat) :
    fallback_duration text.length = min ((8 : ℚ) / 100 * (text.length : ℚ)) 10 ∧
    -1 ≤ fallback_sample text language i ∧ fallback_sample text language i ≤ 1 := by
  constructor
  · unfold fallback_duration
    rw [mul_comm]
  · have hd0 : (0 : ℝ) ≤ ((fallback_duration text.length : ℚ) : ℝ) := by
      exact_mod_cast fallback_duration_nonneg text.length
    have ht0 : 0 ≤ linspace ((fallback_duration text.length : ℚ) : ℝ)
        (fallback_num_samples text.length) i := linspace_nonneg _ _ _ hd0
    have henv : Real.exp (-(linspace ((fallback_duration text.length : ℚ) : ℝ)
        (fallback_num_samples text.length) i) /
          (((fallback_duration text.length : ℚ) : ℝ) / 3)) ≤ 1 := by
      rw [Real.exp_le_one_iff, neg_div]
      exact neg_nonpos.mpr (div_nonneg ht0 (by positivity))
    unfold fallback_sample
    exact amplitude_bound _ _ (Real.neg_one_le_sin _) (Real.sin_le_one _)
      (Real.exp_pos _) henv

theorem pyWords_ne_nil (l : List Char) : ∀ w ∈ pyWords l, w ≠ [] := by
  cases l with
  | nil =>
    intro w hw
    simp [pyWords] at hw
  | cons c rest =>
    intro w hw
    simp only [pyWords] at hw
    by_cases hc : pyIsSpace c = true
    · rw [if_pos hc] at hw
      exact pyWords_ne_nil rest w hw
    · rw [if_neg hc] at hw
      rcases List.mem_cons.mp hw with rfl | hw2
      · simp
      · have hlen : (rest.dropWhile (fun x => !pyIsSpace x)).length ≤ rest.length :=
          (List.dropWhile_sublist (fun x => !pyIsSpace x)).length_le
        exact pyWords_ne_nil (rest.dropWhile fun x => !pyIsSpace x) w hw2
termination_by l.length
decreasing_by
all_goals simp only [List.length_cons] at *; omega

theorem collapseInner_nonspace_append (w s : List Char)
    (hw : ∀ c ∈ w, pyIsSpace c = false) :
    collapseInner (w ++ s) = w ++ collapseInner s := by
  induction w with
  | nil => simp
  | cons c w ih =>
    have hc : pyIsSpace c = false := hw c (List.mem_cons_self c w)
    have hc' : ¬ pyIsSpace c = true := by simp [hc]
    simp only [List.cons_append, collapseInner]
    rw [if_neg hc', ih (fun x hx => hw x (List.mem_cons_of_mem c hx))]

theorem dropWhile_head_false (p : Char → Bool) (l : List Char) (c : Char) (r : List Char)
    (h : l.dropWhile p = c :: r) : p c = false := by
  induction l with
  | nil => simp [List.dropWhile] at h
  | cons a l ih =>
    rw [List.dropWhile_cons] at h
    by_cases ha : p a = true
    · rw [if_pos ha] at h
      exact ih h
    · rw [if_neg ha] at h
      injection h with h1 _
      subst h1
      simpa using ha

theorem joinSpace_pyWords (l : List Char) : joinSpace (pyWords l) = normSpec l := by
  cases l with
  | nil => simp [pyWords, normSpec, collapseInner, joinSpace]
  | cons c rest =>
    by_cases hc : pyIsSpace c = true
    · have hL : pyWords (c :: rest) = pyWords rest := by
        simp only [pyWords]
        rw [if_pos hc]
      have hR : normSpec (c :: rest) = normSpec rest := by
        unfold normSpec
        rw [List.dropWhile_cons, if_pos hc]
      rw [hL, hR]
      exact joinSpace_pyWords rest
    · have hL : pyWords (c :: rest) =
          (c :: rest.takeWhile (fun x => !pyIsSpace x)) ::
            pyWords (rest.dropWhile (fun x => !pyIsSpace x)) := by
        simp only [pyWords]
        rw [if_neg hc]
      have hR1 : normSpec (c :: rest) = c :: collapseInner rest := by
        unfold normSpec
        rw [List.dropWhile_cons, if_neg hc]
        simp only [collapseInner]
        rw [if_neg hc]
      have hsplit : rest.takeWhile (fun x => !pyIsSpace x) ++
          rest.dropWhile (fun x => !pyIsSpace x) = rest :=
        List.takeWhile_append_dropWhile _ _
      have hwns : ∀ x ∈ rest.takeWhile (fun x => !pyIsSpace x), pyIsSpace x = false := by
        intro x hx
        have hall := List.all_eq_true.mp
          (List.all_takeWhile :
            (rest.takeWhile (fun x => !pyIsSpace x)).all (fun x => !pyIsSpace x) = true) x hx
        simpa using hall
      have hci := collapseInner_nonspace_append (rest.takeWhile (fun x => !pyIsSpace x))
        (rest.dropWhile (fun x => !pyIsSpace x)) hwns
      rw [hsplit] at hci
      rw [hL, hR1, hci]
      cases hdrop : rest.dropWhile (fun x => !pyIsSpace x) with
      | nil =>
        simp [joinSpace, pyWords, collapseInner]
      | cons sp r2 =>
        have hsp : (!pyIsSpace sp) = false := dropWhile_head_false _ rest sp r2 hdrop
        have hsp' : pyIsSpace sp = true := by simpa using hsp
        have hW : pyWords (sp :: r2) = pyWords r2 := by
          simp only [pyWords]
          rw [if_pos hsp']
        have hCI : collapseInner (sp :: r2) =
            match normSpec r2 with
            | [] => []
            | x :: xs => ' ' :: x :: xs := by
          simp only [collapseInner]
          rw [if_pos hsp']
          unfold normSpec
          rfl
        have hlen2 : r2.length < rest.length := by
          have hle : (rest.dropWhile (fun x => !pyIsSpace x)).length ≤ rest.length :=
            (List.dropWhile_sublist (fun x => !pyIsSpace x)).length_le
          rw [hdrop] at hle
          simp only [List.length_cons] at hle
          omega
        have hIH : joinSpace (pyWords r2) = normSpec r2 := joinSpace_pyWords r2
        rw [hW, hCI]
        cases hns : normSpec r2 with
        | nil =>
          have hjn : joinSpace (pyWords r2) = [] := by rw [hIH, hns]
          have hw2 : pyWords r2 = [] := by
            cases hpw : pyWords r2 with
            | nil => rfl
            | cons w2 ws2 =>
              rw [hpw] at hjn
              cases ws2 with
              | nil =>
                have hne := pyWords_ne_nil r2 w2 (by rw [hpw]; exact List.mem_cons_self _ _)
                simp [joinSpace] at hjn
                exact absurd hjn hne
              | cons w3 ws3 =>
                simp [joinSpace] at hjn
          rw [hw2]
          simp [joinSpace]
        | cons x xs =>
          have hjx : joinSpace (pyWords r2) = x :: xs := by rw [hIH, hns]
          have hnn : pyWords r2 ≠ [] := by
            intro h0
            rw [h0] at hjx
            simp [joinSpace] at hjx
          obtain ⟨w2, ws2, hw2⟩ : ∃ w2 ws2, pyWords r2 = w2 :: ws2 := by
            cases hpw : pyWords r2 with
            | nil => exact absurd hpw hnn
            | cons w2 ws2 => exact ⟨w2, ws2, rfl⟩
          rw [hw2]
          have hjs : joinSpace ((c :: rest.takeWhile (fun x => !pyIsSpace x)) :: w2 :: ws2) =
              (c :: rest.takeWhile (fun x => !pyIsSpace x)) ++ ' ' :: joinSpace (w2 :: ws2) :=
            rfl
          rw [hjs, ← hw2, hjx]
          simp
termination_by l.length
decreasing_by
all_goals simp only [List.length_cons] at *; omega

/-- C8 counterexample: on the input " a", `' '.join(text.split())` deletes
the leading whitespace run entirely, while the claim's
collapse-every-run-to-one-space normalisation keeps a single leading
space, so `_clean_text` does not implement the claimed normalisation. -/
theorem clean_text_strips_leading_space :
    clean_text [' ', 'a'] = ['a'] ∧
    claim_clean_text [' ', 'a'] = [' ', 'a'] ∧
    clean_text [' ', 'a'] ≠ claim_clean_text [' ', 'a'] := by
  have h1 : clean_text [' ', 'a'] = ['a'] := by
    simp [clean_text, pyWords, joinSpace, replacements, pyReplace, replaceAux, pyIsSpace]
  have h2 : claim_clean_text [' ', 'a'] = [' ', 'a'] := by
    simp [claim_clean_text, collapseRuns, collapseAux, replacements, pyReplace, replaceAux,
      pyIsSpace]
  refine ⟨h1, h2, ?_⟩
  rw [h1, h2]
  simp

/-- C8 amended: `_clean_text` first strips leading and trailing whitespace
and collapses every interior whitespace run into a single space, and then
expands the abbreviation table Dr./Mr./Mrs./Ms./Prof. by literal substring
replacement in that order. -/
theorem clean_text_amended (l : List Char) : clean_text l = spec_clean_text l := by
  unfold clean_text spec_clean_text
  rw [joinSpace_pyWords]

end TextToVoice
